import Mathlib

/-!
Shallow embedding of the peripage printing utility and its print service.

Bytes and character codes are modelled as `Nat`; byte strings and text are
`List Nat`. Every device write performed through `tellPrinter` in the source
is one element of a trace of type `List (List Nat)`.

Sources embedded here:
* `src/peripage/__init__.py` - the `Printer` class (protocol encoder,
  text-wrap buffer, image chunking).
* `src/print_service.py` - the `PrintService` task queue and worker.
-/

namespace Peripage

/-- Specification parameters for each printer model
(`PrinterTypeSpecs` in the source). -/
structure PrinterTypeSpecs where
  row_bytes : Nat
  row_width : Nat
  row_characters : Nat
deriving DecidableEq, Repr

/-- Model A6: 48 bytes, 384 px, 32 characters per row. -/
def specA6 : PrinterTypeSpecs := ⟨48, 384, 32⟩

/-- Model A6+: 72 bytes, 576 px, 48 characters per row. -/
def specA6p : PrinterTypeSpecs := ⟨72, 576, 48⟩

/-- Model A40: 216 bytes, 1728 px, 144 characters per row. -/
def specA40 : PrinterTypeSpecs := ⟨216, 1728, 144⟩

/-- Model A40+: 231 bytes, 1848 px, 154 characters per row. -/
def specA40p : PrinterTypeSpecs := ⟨231, 1848, 154⟩

/-- Predicate kept by `Printer.filter_ascii`:
`(31 < ord(i) or ord(i) == 10) and ord(i) < 127`. -/
def safeAsciiKeep (c : Nat) : Bool :=
  (decide (31 < c) || decide (c = 10)) && decide (c < 127)

/-- Embedding of `Printer.filter_ascii`: keep exactly the characters
satisfying `safeAsciiKeep`. -/
def filter_ascii (text : List Nat) : List Nat :=
  text.filter safeAsciiKeep

/-- Embedding of `Printer.is_safe_ascii`: the loop returns `False` as soon
as a character satisfies `safeAsciiKeep`, and `True` when none does. -/
def is_safe_ascii (text : List Nat) : Bool :=
  text.all (fun c => ! safeAsciiKeep c)

/-- Embedding of the request sent by `Printer.reset`:
`bytes.fromhex` of the 32-hex-digit literal written in the source. -/
def resetRequest : List Nat :=
  [0x10, 0xff, 0xfe, 0x01,
   0x00, 0x00, 0x00, 0x00, 0x00, 0x00,
   0x00, 0x00, 0x00, 0x00, 0x00, 0x00]

/-- Two-byte big-endian encoding, `int.to_bytes(n, 2, big)` for
`0 <= n < 2^16` (the only use site clamps into that range). -/
def toBytesBE2 (n : Nat) : List Nat :=
  [n / 256, n % 256]

/-- Embedding of the request built by `Printer.setPowerTimeout`:
clamp `timeout` with `max(min(0xfff0, timeout), 0x0001)`, then
`10 ff 12` plus the clamped value as two big-endian bytes. -/
def setPowerTimeoutRequest (timeout : Int) : List Nat :=
  let t : Int := max (min 0xfff0 timeout) 0x0001
  [0x10, 0xff, 0x12] ++ toBytesBE2 t.toNat

/-- Clamped value used by `setPowerTimeoutRequest`. -/
def powerTimeoutClamp (timeout : Int) : Int :=
  max (min 0xfff0 timeout) 0x0001

/-- Embedding of the request sent by `Printer.printBreak`:
clamp `size` with `min(0xff, max(0x01, size))`, then
`1b 4a` plus the clamped size as one byte. -/
def printBreakRequest (size : Int) : List Nat :=
  let s : Int := min 0xff (max 0x01 size)
  [0x1b, 0x4a, s.toNat]

/-- Python whitespace test for the character codes that can occur here:
`str.strip()` removes exactly the ASCII whitespace characters
9, 10, 11, 12, 13 and 32 (plus non-ASCII spaces, irrelevant at the
use sites, which only ever test emptiness of the stripped string). -/
def isSpace (c : Nat) : Bool :=
  decide (c = 9) || decide (c = 10) || decide (c = 11) ||
  decide (c = 12) || decide (c = 13) || decide (c = 32)

/-- Emptiness test of `s.strip()` as used in the source
(`len(s.strip()) == 0` holds iff every character is whitespace). -/
def isBlank (s : List Nat) : Bool :=
  s.all isSpace

/-- Embedding of `str.split` on the line-feed character: `n` separators
yield `n + 1` (possibly empty) pieces, none containing a line-feed. -/
def splitOnLF : List Nat → List (List Nat)
  | [] => [[]]
  | c :: rest =>
    if c = 10 then
      [] :: splitOnLF rest
    else
      match splitOnLF rest with
      | [] => [[c]]
      | p :: ps => (c :: p) :: ps

/-- Fuel-driven slicing, structural so that the kernel can evaluate it.
With `1 ≤ k` and `l.length ≤ fuel` it computes the Python slicing
`[ l[i:i+k] for i in range(0, len(l), k) ]`. -/
def chunksOfFuel (k : Nat) : Nat → List (List Nat) → List (List (List Nat))
  | _, [] => []
  | 0, _ :: _ => []
  | fuel + 1, c :: rest => (c :: rest).take k :: chunksOfFuel k fuel ((c :: rest).drop k)

/-- Slicing a list of rows into consecutive chunks of `k` rows
(`[ rowbytes[i:i+0xff] for i in range(0, len(rowbytes), 0xff) ]`). -/
def chunksOf (k : Nat) (l : List (List Nat)) : List (List (List Nat)) :=
  chunksOfFuel k l.length l

/-- Fuel-driven character slicing, same Python comprehension applied to a
string (`[ l[i:i+rowChars] for i in range(0, len(l), rowChars) ]`). -/
def chunksOfStrFuel (k : Nat) : Nat → List Nat → List (List Nat)
  | _, [] => []
  | 0, _ :: _ => []
  | fuel + 1, c :: rest => (c :: rest).take k :: chunksOfStrFuel k fuel ((c :: rest).drop k)

/-- Slicing a line into pieces of `k` characters. -/
def chunksOfStr (k : Nat) (l : List Nat) : List (List Nat) :=
  chunksOfStrFuel k l.length l

/-- One iteration of the line loop in `Printer.printASCII`, acting on the
in-class buffer and returning the writes it emits together with the new
buffer. The three branches mirror the source:
1. a pending buffer from an earlier (short) piece is flushed with a
   terminating line-feed and the current line is dropped;
2. otherwise a blank line flushes the (empty, dead branch kept from the
   source) buffer or emits a break of size 30;
3. otherwise the line is sliced into `row_characters` pieces, each
   full piece is written followed by a line-feed, and a final short piece
   becomes the new buffer. -/
def processLine (spec : PrinterTypeSpecs) (buffer : List Nat) (l : List Nat) :
    List (List Nat) × List Nat :=
  if buffer.length ≠ 0 then
    ([buffer, [10]], [])
  else if isBlank l then
    if buffer.length ≠ 0 then
      ([buffer, [10]], [])
    else
      ([printBreakRequest 30], [])
  else
    (chunksOfStr spec.row_characters l).foldl
      (fun acc p =>
        if p.length = spec.row_characters then
          (acc.1 ++ [p, [10]], acc.2)
        else
          (acc.1, p))
      ([], buffer)

/-- Folding `processLine` over the lines of the input, starting from the
buffer state at the top of the loop (always empty in the source, because
the buffer is merged into the text and cleared before the loop). -/
def processLines (spec : PrinterTypeSpecs) (lines : List (List Nat)) :
    List (List Nat) × List Nat :=
  lines.foldl
    (fun acc l =>
      let r := processLine spec acc.2 l
      (acc.1 ++ r.1, r.2))
    ([], [])

/-- Embedding of `Printer.printASCII`. Input is the raw text, `buffer` is
the `print_buffer` field before the call. Returns the trace of device
writes and the `print_buffer` after the call. Delays are not modelled. -/
def printASCII (spec : PrinterTypeSpecs) (buffer : List Nat) (input : List Nat) :
    List (List Nat) × List Nat :=
  let text := buffer ++ filter_ascii input
  if text.length = 0 then
    ([], [])
  else if isBlank text then
    ((text.filter (fun c => decide (c = 10))).map (fun _ => printBreakRequest 30), [])
  else
    processLines spec (splitOnLF text)

/-- Embedding of `Printer.flushASCII`: if the buffer is non-empty, write
it followed by a line-feed and clear it. -/
def flushASCII (buffer : List Nat) : List (List Nat) × List Nat :=
  if buffer.length ≠ 0 then
    ([buffer, [10]], [])
  else
    ([], buffer)

/-- Safety predicate on a write trace: no two adjacent writes are both a
single raw line-feed byte. Repeated line-feeds freeze the device. -/
def noDoubleLF : List (List Nat) → Bool
  | [] => true
  | [_] => true
  | e1 :: e2 :: rest =>
    (! (decide (e1 = [10]) && decide (e2 = [10]))) && noDoubleLF (e2 :: rest)

/-- Head of a trace is not a raw line-feed write (vacuously true for an
empty trace); used to concatenate safe traces. -/
def headNotLF : List (List Nat) → Bool
  | [] => true
  | e :: _ => ! decide (e = [10])

/-- Normalization of one image row in `Printer.printRow` and
`Printer.printRowBytesList`: pad with zero bytes on the right
(`ljust`) when short, truncate when long. -/
def normalizeRow (rowBytes : Nat) (row : List Nat) : List Nat :=
  if row.length < rowBytes then
    row ++ List.replicate (rowBytes - row.length) 0
  else if row.length > rowBytes then
    row.take rowBytes
  else
    row

/-- Embedding of `Printer.printRow`: normalize the row, send `reset`,
then send the framed row
(`1d763000` + one byte `row_bytes` + `000100` + row bytes).
All model values of `row_bytes` fit one byte. -/
def printRow (spec : PrinterTypeSpecs) (row : List Nat) : List (List Nat) :=
  let row2 := normalizeRow spec.row_bytes row
  [resetRequest,
   [0x1d, 0x76, 0x30, 0x00, spec.row_bytes, 0x00, 0x01, 0x00] ++ row2]

/-- Transfer chunks used by `Printer.printRowBytesList`: slices of at
most `0xff` rows. -/
def transferChunks (rows : List (List Nat)) : List (List (List Nat)) :=
  chunksOf 0xff rows

/-- Embedding of `Printer.printRowBytesList`: nothing for an empty input;
otherwise, per chunk of at most 255 rows, a `reset`, a preamble
(`1d763000` + one byte `row_bytes` + `00` + one byte chunk height + `00`)
and one write per normalized row. -/
def printRowBytesList (spec : PrinterTypeSpecs) (rows : List (List Nat)) :
    List (List Nat) :=
  if rows.length = 0 then
    []
  else
    (transferChunks rows).foldl
      (fun acc chunk =>
        acc ++ [resetRequest,
                [0x1d, 0x76, 0x30, 0x00, spec.row_bytes, 0x00, chunk.length, 0x00]]
            ++ chunk.map (normalizeRow spec.row_bytes))
      []

end Peripage

namespace PrintService

/-- A queued task of the service worker. `outcome = true` models an
execution that completes without raising, `outcome = false` one that
raises an exception (or times out). `id` identifies the task so that
executions can be counted. -/
structure Task where
  id : Nat
  outcome : Bool
deriving DecidableEq, Repr

/-- State of the worker between iterations of the `while` loop of
`service_handler`: the event queue, connection liveness, and the
`service_failture` flag. Timestamps and sleeps are not modelled. -/
structure ServiceState where
  events : List Task
  connected : Bool
  failture : Bool
deriving DecidableEq, Repr

/-- One iteration of the `while` loop in `service_handler`
(`src/print_service.py`). Returns the list of task ids executed during
the iteration, the state after it, and whether the handler returned
(`True` on the success path, `False` when the `except` branch ran and
the loop continues).

Mirrors the source:
* a dead connection raises before any task runs; the `except` branch
  reconnects (reconnection is modelled as succeeding, which is the case
  relevant to the task-lifecycle claims) and clears the failure flag
  only after a successful connect;
* with a live connection and a non-empty queue, `events[0]` is executed
  first and `events.pop(0)` runs only afterwards, so a raising task is
  left at the head of the queue while the `except` branch sets the
  failure flag;
* the pop and the `return` are reached only when the task did not
  raise. -/
def serviceIteration (st : ServiceState) : List Nat × ServiceState × Bool :=
  if st.connected = false then
    ([], { st with connected := true, failture := false }, false)
  else
    match st.events with
    | [] => ([], st, true)
    | t :: rest =>
      if t.outcome then
        ([t.id], { st with events := rest }, true)
      else
        ([t.id], { st with failture := true }, false)

/-- Tasks enqueued by the `add_print_*` helpers, named by what the queued
closure does. -/
inductive QueuedWork where
  | brk (size : Int)
deriving DecidableEq, Repr

/-- Embedding of `PrintService.add_print_break`: only a `break_size` that
is not `None` and strictly positive appends a task and returns `True`;
otherwise the queue is untouched and the result is `False`. -/
def add_print_break (events : List QueuedWork) (break_size : Option Int) :
    Bool × List QueuedWork :=
  match break_size with
  | none => (false, events)
  | some s =>
    if s > 0 then
      (true, events ++ [QueuedWork.brk s])
    else
      (false, events)

end PrintService

namespace Peripage

/-- C2 counterexample: the reset request is not 17 bytes long, and it is
not the opcode followed by 13 zero bytes. -/
theorem reset_not_17_bytes :
    ¬ (resetRequest.length = 17 ∧
       resetRequest = [0x10, 0xff, 0xfe, 0x01] ++ List.replicate 13 0) := by
  decide

/-- C2 (amended): the reset operation encodes to a fixed 16-byte command,
the opcode bytes `10 ff fe 01` followed by 12 zero bytes. -/
theorem reset_encoding :
    resetRequest = [0x10, 0xff, 0xfe, 0x01] ++ List.replicate 12 0 ∧
    resetRequest.length = 16 := by
  decide

/-- C5: a row shorter than `rowBytes` is zero-padded on the right to
exactly `rowBytes` bytes, a longer row is truncated to exactly
`rowBytes`, the normalized row always has length `rowBytes`, and
`printRow` always sends the normalized row (no row is rejected). -/
theorem row_normalization (rb : Nat) (row : List Nat) (spec : PrinterTypeSpecs) :
    (normalizeRow rb row).length = rb ∧
    (row.length < rb → normalizeRow rb row = row ++ List.replicate (rb - row.length) 0) ∧
    (rb < row.length → normalizeRow rb row = row.take rb) ∧
    printRow spec row =
      [resetRequest,
       [0x1d, 0x76, 0x30, 0x00, spec.row_bytes, 0x00, 0x01, 0x00] ++
         normalizeRow spec.row_bytes row] := by
  refine ⟨?_, ?_, ?_, rfl⟩
  · unfold normalizeRow
    split_ifs with h1 h2 <;> first | (simp; omega) | omega
  · intro h
    unfold normalizeRow
    rw [if_pos h]
  · intro h
    unfold normalizeRow
    rw [if_neg (by omega), if_pos h]

/-- C5 witness: concrete padding and truncation instances. -/
theorem row_normalization_witness :
    (normalizeRow 2 [7]).length = 2 ∧
    normalizeRow 2 [7] = [7] ++ List.replicate 1 0 ∧
    normalizeRow 2 [7, 8, 9] = [7, 8] := by
  refine ⟨(row_normalization 2 [7] specA6).1,
          (row_normalization 2 [7] specA6).2.1 (by decide), ?_⟩
  have h := (row_normalization 2 [7, 8, 9] specA6).2.2.1 (by decide)
  simpa using h

/-- C7 counterexample: the power-timeout command is not 6 bytes long. -/
theorem powerTimeout_not_6_bytes :
    ¬ ((setPowerTimeoutRequest 0).length = 6) := by
  decide

/-- C7 (amended): `setPowerTimeout` clamps the minutes into
`[1, 0xfff0]` (in particular the argument 0 clamps to 1) and encodes a
5-byte command `10 ff 12` followed by the clamped minutes as a
big-endian 16-bit field. -/
theorem powerTimeout_encoding (t : Int) :
    1 ≤ powerTimeoutClamp t ∧
    powerTimeoutClamp t ≤ 0xfff0 ∧
    powerTimeoutClamp 0 = 1 ∧
    setPowerTimeoutRequest t =
      [0x10, 0xff, 0x12,
       (powerTimeoutClamp t).toNat / 256, (powerTimeoutClamp t).toNat % 256] ∧
    (setPowerTimeoutRequest t).length = 5 := by
  unfold powerTimeoutClamp setPowerTimeoutRequest toBytesBE2
  refine ⟨?_, ?_, by decide, rfl, rfl⟩
  · exact le_max_right _ _
  · rw [max_le_iff]
    exact ⟨min_le_left _ _, by norm_num⟩

/-- C8: flushing twice in a row emits nothing the second time (the
buffer is cleared by the first flush); a non-empty buffer is emitted
followed by a terminating line-feed and cleared; an empty buffer emits
nothing and stays empty. -/
theorem flush_idempotent (b : List Nat) :
    (flushASCII (flushASCII b).2).1 = [] ∧
    (b ≠ [] → flushASCII b = ([b, [10]], [])) ∧
    (b = [] → flushASCII b = ([], b)) := by
  refine ⟨?_, ?_, ?_⟩
  · cases b <;> simp [flushASCII]
  · intro h
    simp [flushASCII, h]
  · intro h
    simp [flushASCII, h]

/-- C8 witness: flushing the one-character buffer `a` emits it with a
line-feed, and a second flush emits nothing. -/
theorem flush_idempotent_witness :
    (flushASCII (flushASCII [97]).2).1 = [] ∧
    flushASCII [97] = ([[97], [10]], []) :=
  ⟨(flush_idempotent [97]).1, (flush_idempotent [97]).2.1 (by decide)⟩

end Peripage

namespace Peripage

/-- Pointwise content of the `is_safe_ascii` loop test: a character
passes all checks iff it is neither in the open code range (31, 127)
nor a line-feed. -/
lemma not_safeAsciiKeep_iff (c : Nat) :
    (! safeAsciiKeep c) = true ↔ ¬(31 < c ∧ c < 127) ∧ c ≠ 10 := by
  simp [safeAsciiKeep]
  omega

/-- C9: `is_safe_ascii` returns `True` iff the text has no character
with code in the open range (31, 127) and no line-feed; consequently it
returns `False` on every non-empty output of `filter_ascii`, the
opposite of its documented meaning. -/
theorem is_safe_ascii_inverted (text : List Nat) :
    (is_safe_ascii text = true ↔ ∀ c ∈ text, ¬(31 < c ∧ c < 127) ∧ c ≠ 10) ∧
    (filter_ascii text ≠ [] → is_safe_ascii (filter_ascii text) = false) := by
  constructor
  · rw [is_safe_ascii, List.all_eq_true]
    exact forall_congr' fun c => imp_congr_right fun _ => not_safeAsciiKeep_iff c
  · intro h
    cases hf : filter_ascii text with
    | nil => exact absurd hf h
    | cons c rest =>
      have hc : c ∈ filter_ascii text := by
        rw [hf]
        exact List.mem_cons_self c rest
      have hk : safeAsciiKeep c = true := (List.mem_filter.mp hc).2
      simp [is_safe_ascii, hk]

/-- C9 witness: the letter `a` makes `is_safe_ascii` return `False`,
also after filtering. -/
theorem is_safe_ascii_inverted_witness :
    (is_safe_ascii [97] = true ↔ ∀ c ∈ [97], ¬(31 < c ∧ c < 127) ∧ c ≠ 10) ∧
    is_safe_ascii (filter_ascii [97]) = false :=
  ⟨(is_safe_ascii_inverted [97]).1, (is_safe_ascii_inverted [97]).2 (by decide)⟩

end Peripage

namespace PrintService

/-- C10: `add_print_break` appends a task and returns `True` exactly for
a `break_size` that is present and strictly positive; for `None` or a
non-positive size it returns `False` and leaves the queue unchanged. -/
theorem add_print_break_guard (events : List QueuedWork) (bs : Option Int) :
    (bs = none → add_print_break events bs = (false, events)) ∧
    (∀ s, bs = some s → 0 < s →
        add_print_break events bs = (true, events ++ [QueuedWork.brk s])) ∧
    (∀ s, bs = some s → s ≤ 0 →
        add_print_break events bs = (false, events)) := by
  refine ⟨?_, ?_, ?_⟩
  · intro h
    subst h
    rfl
  · intro s h hs
    subst h
    simp only [add_print_break]
    rw [if_pos hs]
  · intro s h hs
    subst h
    simp only [add_print_break]
    rw [if_neg (by omega)]

/-- C10 witness: concrete calls with `None`, size 5 and size 0. -/
theorem add_print_break_guard_witness :
    add_print_break [] none = (false, []) ∧
    add_print_break [] (some 5) = (true, [QueuedWork.brk 5]) ∧
    add_print_break [] (some 0) = (false, []) :=
  ⟨(add_print_break_guard [] none).1 rfl,
   (add_print_break_guard [] (some 5)).2.1 5 rfl (by decide),
   (add_print_break_guard [] (some 0)).2.2 0 rfl (by decide)⟩

/-- C1 counterexample: a task that raises is executed by one iteration,
left at the head of the queue, and executed again by the next
iteration - it is neither discarded nor executed at most once. -/
theorem task_retry_counterexample :
    (serviceIteration ⟨[⟨0, false⟩], true, false⟩).1 = [0] ∧
    (serviceIteration ⟨[⟨0, false⟩], true, false⟩).2.1.events = [⟨0, false⟩] ∧
    (serviceIteration ((serviceIteration ⟨[⟨0, false⟩], true, false⟩).2.1)).1 = [0] := by
  decide

/-- C1 (amended): when the head task raises an exception or times out,
the worker leaves it at the head of the queue (to be retried by the
next iteration) and only sets the failure flag; a task is removed from
the queue exactly after an execution that completes without raising. -/
theorem task_retry (st : ServiceState) (t : Task) (rest : List Task)
    (hc : st.connected = true) (he : st.events = t :: rest) :
    (t.outcome = false →
        serviceIteration st = ([t.id], { st with failture := true }, false)) ∧
    (t.outcome = true →
        serviceIteration st = ([t.id], { st with events := rest }, true)) := by
  constructor <;> intro h <;> simp [serviceIteration, hc, he, h]

/-- C1 witness: one failing and one succeeding singleton queue. -/
theorem task_retry_witness :
    serviceIteration ⟨[⟨3, false⟩], true, false⟩ = ([3], ⟨[⟨3, false⟩], true, true⟩, false) ∧
    serviceIteration ⟨[⟨4, true⟩], true, false⟩ = ([4], ⟨[], true, false⟩, true) :=
  ⟨(task_retry ⟨[⟨3, false⟩], true, false⟩ ⟨3, false⟩ [] rfl rfl).1 rfl,
   (task_retry ⟨[⟨4, true⟩], true, false⟩ ⟨4, true⟩ [] rfl rfl).2 rfl⟩

end PrintService

namespace Peripage

/-- Slicing the empty list gives no chunks, whatever the fuel. -/
lemma chunksOfFuel_nil (k fuel : Nat) : chunksOfFuel k fuel [] = [] := by
  cases fuel <;> rfl

/-- Number of 255-row chunks is the ceiling of the row count over 255. -/
lemma chunks255_count :
    ∀ (fuel : Nat) (l : List (List Nat)), l.length ≤ fuel →
      (chunksOfFuel 255 fuel l).length = (l.length + 254) / 255 := by
  intro fuel
  induction fuel with
  | zero =>
    intro l hl
    have h0 : l = [] := List.length_eq_zero.mp (Nat.le_zero.mp hl)
    subst h0
    rfl
  | succ n ih =>
    intro l hl
    cases l with
    | nil => rfl
    | cons c rest =>
      show ((c :: rest).take 255 :: chunksOfFuel 255 n ((c :: rest).drop 255)).length = _
      rw [List.length_cons, ih _ (by rw [List.length_drop]; simp at hl ⊢; omega)]
      rw [List.length_drop]
      simp only [List.length_cons]
      omega

/-- Every 255-row chunk has height at most 255. -/
lemma chunks255_height :
    ∀ (fuel : Nat) (l : List (List Nat)) (c : List (List Nat)),
      c ∈ chunksOfFuel 255 fuel l → c.length ≤ 255 := by
  intro fuel
  induction fuel with
  | zero =>
    intro l c hc
    cases l with
    | nil => simp [chunksOfFuel] at hc
    | cons a rest => simp [chunksOfFuel] at hc
  | succ n ih =>
    intro l c hc
    cases l with
    | nil => simp [chunksOfFuel] at hc
    | cons a rest =>
      rcases List.mem_cons.mp hc with h | h
      · subst h
        rw [List.length_take]
        omega
      · exact ih _ c h

/-- The chunk heights sum to the total number of rows. -/
lemma chunks255_sum :
    ∀ (fuel : Nat) (l : List (List Nat)), l.length ≤ fuel →
      ((chunksOfFuel 255 fuel l).map List.length).sum = l.length := by
  intro fuel
  induction fuel with
  | zero =>
    intro l hl
    have h0 : l = [] := List.length_eq_zero.mp (Nat.le_zero.mp hl)
    subst h0
    rfl
  | succ n ih =>
    intro l hl
    cases l with
    | nil => rfl
    | cons c rest =>
      show (((c :: rest).take 255).length
              :: (chunksOfFuel 255 n ((c :: rest).drop 255)).map List.length).sum = _
      rw [List.sum_cons, ih _ (by rw [List.length_drop]; simp at hl ⊢; omega)]
      rw [List.length_take, List.length_drop]
      simp only [List.length_cons]
      omega

/-- C6: an empty image issues no commands at all; otherwise the rows are
split into exactly ceil(N/255) transfer chunks, each of height at most
255, whose heights sum to N. -/
theorem image_chunking (spec : PrinterTypeSpecs) (rows : List (List Nat)) :
    (rows.length = 0 → printRowBytesList spec rows = []) ∧
    (transferChunks rows).length = (rows.length + 254) / 255 ∧
    (∀ c ∈ transferChunks rows, c.length ≤ 255) ∧
    ((transferChunks rows).map List.length).sum = rows.length := by
  refine ⟨?_, ?_, ?_, ?_⟩
  · intro h
    simp [printRowBytesList, h]
  · exact chunks255_count rows.length rows le_rfl
  · intro c hc
    exact chunks255_height rows.length rows c hc
  · exact chunks255_sum rows.length rows le_rfl

/-- C6 witness: the empty image is a no-op, and a 2-row image forms one
chunk of total height 2. -/
theorem image_chunking_witness :
    printRowBytesList specA6 [] = [] ∧
    (transferChunks [[1], [2]]).length = 1 ∧
    ((transferChunks [[1], [2]]).map List.length).sum = 2 := by
  refine ⟨(image_chunking specA6 []).1 rfl, ?_, ?_⟩
  · have h := (image_chunking specA6 [[1], [2]]).2.1
    simpa using h
  · have h := (image_chunking specA6 [[1], [2]]).2.2.2
    simpa using h

end Peripage

namespace Peripage

/-- Splitting a line-feed-free text yields the text as its single line. -/
lemma splitOnLF_of_no_LF : ∀ (l : List Nat), ¬ 10 ∈ l → splitOnLF l = [l] := by
  intro l
  induction l with
  | nil =>
    intro h
    rfl
  | cons c rest ih =>
    intro h
    have hc : c ≠ 10 := fun e => h (e ▸ List.mem_cons_self c rest)
    have hr : ¬ 10 ∈ rest := fun m => h (List.mem_cons_of_mem c m)
    simp [splitOnLF, hc, ih hr]

/-- Character slicing of the empty string is empty, whatever the fuel. -/
lemma chunksOfStrFuel_nil (k fuel : Nat) : chunksOfStrFuel k fuel [] = [] := by
  cases fuel <;> rfl

/-- A non-empty string no longer than the slice width forms one slice. -/
lemma chunksOfStr_single (k : Nat) (l : List Nat) (h0 : l ≠ []) (hk : l.length ≤ k) :
    chunksOfStr k l = [l] := by
  cases l with
  | nil => exact absurd rfl h0
  | cons c rest =>
    show chunksOfStrFuel k (rest.length + 1) (c :: rest) = [c :: rest]
    rw [chunksOfStrFuel]
    rw [List.take_of_length_le hk, List.drop_eq_nil_of_le hk, chunksOfStrFuel_nil]

end Peripage

namespace Peripage

/-- C3 counterexample: the single-space text has no line-feed and is
shorter than any row width, yet feeding it from an empty buffer leaves
the pending buffer empty instead of making it the text. -/
theorem feed_short_text_counterexample :
    ¬ (printASCII specA6 [] [32] = ([], [32])) ∧
    printASCII specA6 [] [32] = ([], []) := by
  decide

/-- C3 (amended): for every text of safe-ASCII characters that contains
no line-feed, is shorter than `rowCharacters` and contains at least one
non-whitespace character, `printASCII` from an empty pending buffer
emits no device write and the text becomes the pending buffer exactly. -/
theorem feed_short_text (spec : PrinterTypeSpecs) (input : List Nat)
    (hsafe : filter_ascii input = input)
    (hnl : ¬ 10 ∈ input)
    (hshort : input.length < spec.row_characters)
    (hnb : isBlank input = false) :
    printASCII spec [] input = ([], input) := by
  have hne : input ≠ [] := by
    intro e
    rw [e] at hnb
    exact absurd hnb (by decide)
  unfold printASCII
  simp only [List.nil_append, hsafe]
  rw [if_neg (by simpa using hne)]
  rw [if_neg (by simp [hnb])]
  rw [splitOnLF_of_no_LF input hnl]
  unfold processLines
  simp only [List.foldl_cons, List.foldl_nil]
  unfold processLine
  rw [if_neg (by simp)]
  rw [if_neg (by simp [hnb])]
  rw [chunksOfStr_single spec.row_characters input hne (Nat.le_of_lt hshort)]
  simp only [List.foldl_cons, List.foldl_nil]
  rw [if_neg (by omega)]
  rfl

/-- C3 witness: feeding the two-letter text `ab` on an A6 stores it as
the pending buffer with no device write. -/
theorem feed_short_text_witness :
    printASCII specA6 [] [97, 98] = ([], [97, 98]) :=
  feed_short_text specA6 [97, 98] (by decide) (by decide) (by decide) (by decide)

end Peripage

namespace Peripage

/-- Consing any write onto a safe trace whose head is not a raw
line-feed keeps the trace safe. -/
lemma noDoubleLF_cons (e : List Nat) (t : List (List Nat))
    (h1 : noDoubleLF t = true) (h2 : headNotLF t = true) :
    noDoubleLF (e :: t) = true := by
  cases t with
  | nil => rfl
  | cons f r =>
    have hf : f ≠ [10] := by simpa [headNotLF] using h2
    simp [noDoubleLF, h1, hf]

/-- The head of a concatenation of head-safe traces is not a raw
line-feed. -/
lemma headNotLF_append (t1 t2 : List (List Nat))
    (h1 : headNotLF t1 = true) (h2 : headNotLF t2 = true) :
    headNotLF (t1 ++ t2) = true := by
  cases t1 with
  | nil => simpa using h2
  | cons e r => simpa [headNotLF] using h1

/-- Concatenating a safe trace with a safe, head-safe trace is safe. -/
lemma noDoubleLF_append (t1 : List (List Nat)) :
    ∀ t2 : List (List Nat), noDoubleLF t1 = true → noDoubleLF t2 = true →
      headNotLF t2 = true → noDoubleLF (t1 ++ t2) = true := by
  induction t1 with
  | nil =>
    intro t2 _ h2 _
    simpa using h2
  | cons e r ih =>
    intro t2 h1 h2 h3
    cases r with
    | nil => exact noDoubleLF_cons e t2 h2 h3
    | cons f r2 =>
      have h1a : ¬(e = [10] ∧ f = [10]) := by
        simp [noDoubleLF] at h1
        tauto
      have h1b : noDoubleLF (f :: r2) = true := by
        simp [noDoubleLF] at h1
        tauto
      show noDoubleLF (e :: f :: (r2 ++ t2)) = true
      have hr := ih t2 h1b h2 h3
      simp only [noDoubleLF, Bool.and_eq_true]
      constructor
      · simp
        tauto
      · simpa using hr

/-- A trace none of whose writes is a raw line-feed is safe and
head-safe. -/
lemma noDoubleLF_of_all (t : List (List Nat)) (h : ∀ e ∈ t, e ≠ [10]) :
    noDoubleLF t = true ∧ headNotLF t = true := by
  induction t with
  | nil => exact ⟨rfl, rfl⟩
  | cons e r ih =>
    have he : e ≠ [10] := h e (List.mem_cons_self e r)
    have hr := ih (fun x hx => h x (List.mem_cons_of_mem e hx))
    refine ⟨noDoubleLF_cons e r hr.1 hr.2, ?_⟩
    simp [headNotLF, he]

/-- Every character of every slice of a string is a character of the
string. -/
lemma chunksOfStrFuel_subset (k : Nat) :
    ∀ (fuel : Nat) (l p : List Nat), p ∈ chunksOfStrFuel k fuel l → ∀ x ∈ p, x ∈ l := by
  intro fuel
  induction fuel with
  | zero =>
    intro l p hp
    cases l with
    | nil => simp [chunksOfStrFuel] at hp
    | cons c r => simp [chunksOfStrFuel] at hp
  | succ n ih =>
    intro l p hp x hx
    cases l with
    | nil => simp [chunksOfStrFuel] at hp
    | cons c r =>
      rcases List.mem_cons.mp hp with h | h
      · subst h
        exact List.take_subset _ _ hx
      · exact List.drop_subset _ _ (ih _ p h x hx)

/-- No line of `splitOnLF` contains a line-feed. -/
lemma splitOnLF_no_LF : ∀ (text : List Nat) (l : List Nat),
    l ∈ splitOnLF text → ¬ 10 ∈ l := by
  intro text
  induction text with
  | nil =>
    intro l hl
    simp [splitOnLF] at hl
    subst hl
    simp
  | cons c rest ih =>
    intro l hl
    by_cases hc : c = 10
    · rw [splitOnLF, if_pos hc] at hl
      rcases List.mem_cons.mp hl with h | h
      · subst h
        simp
      · exact ih l h
    · rw [splitOnLF, if_neg hc] at hl
      cases hsp : splitOnLF rest with
      | nil =>
        rw [hsp] at hl
        simp at hl
        subst hl
        simp
        omega
      | cons p ps =>
        rw [hsp] at hl
        simp only [] at hl
        rcases List.mem_cons.mp hl with h | h
        · subst h
          intro hm
          rcases List.mem_cons.mp hm with h10 | h10
          · exact hc h10.symm
          · exact ih p (by rw [hsp]; exact List.mem_cons_self p ps) h10
        · exact ih l (by rw [hsp]; exact List.mem_cons_of_mem p h)

end Peripage

namespace Peripage

/-- The piece-emission fold of `processLine` preserves trace safety:
every full piece is written as a line-feed-free text followed by one
line-feed, and the carried buffer stays line-feed-free. -/
lemma emitParts_good (spec : PrinterTypeSpecs) :
    ∀ (parts : List (List Nat)) (acc : List (List Nat) × List Nat),
      (∀ p ∈ parts, ¬ 10 ∈ p) →
      noDoubleLF acc.1 = true → headNotLF acc.1 = true → ¬ 10 ∈ acc.2 →
      noDoubleLF (parts.foldl
        (fun acc p =>
          if p.length = spec.row_characters then (acc.1 ++ [p, [10]], acc.2)
          else (acc.1, p)) acc).1 = true ∧
      headNotLF (parts.foldl
        (fun acc p =>
          if p.length = spec.row_characters then (acc.1 ++ [p, [10]], acc.2)
          else (acc.1, p)) acc).1 = true ∧
      ¬ 10 ∈ (parts.foldl
        (fun acc p =>
          if p.length = spec.row_characters then (acc.1 ++ [p, [10]], acc.2)
          else (acc.1, p)) acc).2 := by
  intro parts
  induction parts with
  | nil =>
    intro acc hp h1 h2 h3
    exact ⟨h1, h2, h3⟩
  | cons p ps ih =>
    intro acc hp h1 h2 h3
    have hp10 : ¬ 10 ∈ p := hp p (List.mem_cons_self p ps)
    have hpne : p ≠ [10] := fun e => hp10 (by rw [e]; simp)
    have hps : ∀ q ∈ ps, ¬ 10 ∈ q := fun q hq => hp q (List.mem_cons_of_mem p hq)
    simp only [List.foldl_cons]
    by_cases hl : p.length = spec.row_characters
    · rw [if_pos hl]
      apply ih
      · exact hps
      · exact noDoubleLF_append acc.1 [p, [10]] h1
          (by simp [noDoubleLF, hpne]) (by simp [headNotLF, hpne])
      · exact headNotLF_append _ _ h2 (by simp [headNotLF, hpne])
      · exact h3
    · rw [if_neg hl]
      exact ih _ hps h1 h2 hp10

/-- One line-loop iteration preserves trace safety and the
line-feed-freeness of the buffer. -/
lemma processLine_good (spec : PrinterTypeSpecs) (buffer l : List Nat)
    (hb : ¬ 10 ∈ buffer) (hl : ¬ 10 ∈ l) :
    noDoubleLF (processLine spec buffer l).1 = true ∧
    headNotLF (processLine spec buffer l).1 = true ∧
    ¬ 10 ∈ (processLine spec buffer l).2 := by
  have hbne : buffer ≠ [10] := fun e => hb (by rw [e]; simp)
  unfold processLine
  split_ifs with h1 h2
  · exact ⟨by simp [noDoubleLF, hbne], by simp [headNotLF, hbne], by simp⟩
  · exact ⟨rfl, by decide, by simp⟩
  · have hp : ∀ p ∈ chunksOfStr spec.row_characters l, ¬ 10 ∈ p := by
      intro p hpmem hmem
      exact hl (chunksOfStrFuel_subset spec.row_characters l.length l p hpmem 10 hmem)
    exact emitParts_good spec (chunksOfStr spec.row_characters l) ([], buffer) hp rfl rfl hb

/-- The line loop keeps the whole trace safe, starting from any safe
accumulated trace and line-feed-free buffer. -/
lemma processLines_fold_good (spec : PrinterTypeSpecs) :
    ∀ (lines : List (List Nat)) (acc : List (List Nat) × List Nat),
      (∀ l ∈ lines, ¬ 10 ∈ l) →
      noDoubleLF acc.1 = true → headNotLF acc.1 = true → ¬ 10 ∈ acc.2 →
      noDoubleLF (lines.foldl
        (fun acc l =>
          let r := processLine spec acc.2 l
          (acc.1 ++ r.1, r.2)) acc).1 = true := by
  intro lines
  induction lines with
  | nil =>
    intro acc _ h1 _ _
    exact h1
  | cons l ls ih =>
    intro acc hls h1 h2 h3
    simp only [List.foldl_cons]
    have hpl := processLine_good spec acc.2 l h3 (hls l (List.mem_cons_self l ls))
    apply ih
    · exact fun x hx => hls x (List.mem_cons_of_mem l hx)
    · exact noDoubleLF_append acc.1 _ h1 hpl.1 hpl.2.1
    · exact headNotLF_append _ _ h2 hpl.2.1
    · exact hpl.2.2

end Peripage

namespace Peripage

/-- C4 counterexample: the input `a`, line-feed, line-feed, `b` contains
two consecutive line-feeds, yet its trace contains no break command at
all (the empty line only flushes the buffered `a`), refuting the part
of the claim that such a run always produces a break. -/
theorem no_double_linefeed_counterexample :
    (printASCII specA6 [] [97, 10, 10, 98]).1 = [[97], [10]] ∧
    ¬ printBreakRequest 30 ∈ (printASCII specA6 [] [97, 10, 10, 98]).1 := by
  decide

/-- C4 (amended): for every buffer state and input, the write trace of
`printASCII` never contains two consecutive raw line-feed writes; an
empty line arising from a run of consecutive line-feeds produces a
break command when the pending buffer at that point is empty, and
flushes the buffer with a single terminating line-feed when it is
non-empty. -/
theorem no_double_linefeed (spec : PrinterTypeSpecs) (buffer input : List Nat) :
    noDoubleLF (printASCII spec buffer input).1 = true ∧
    (buffer = [] → isBlank input = true →
        processLine spec buffer input = ([printBreakRequest 30], [])) ∧
    (buffer ≠ [] →
        processLine spec buffer input = ([buffer, [10]], [])) := by
  refine ⟨?_, ?_, ?_⟩
  · unfold printASCII
    dsimp only
    split_ifs with h1 h2
    · rfl
    · have hall : ∀ e ∈ ((buffer ++ filter_ascii input).filter
          (fun c => decide (c = 10))).map (fun _ => printBreakRequest 30),
          e ≠ [10] := by
        intro e he
        rcases List.mem_map.mp he with ⟨c, _, hce⟩
        rw [← hce]
        decide
      exact (noDoubleLF_of_all _ hall).1
    · unfold processLines
      apply processLines_fold_good
      · exact fun l hl => splitOnLF_no_LF _ l hl
      · rfl
      · rfl
      · simp
  · intro hb hbl
    subst hb
    simp [processLine, hbl]
  · intro hb
    have hlen : buffer.length ≠ 0 := by simpa using hb
    simp [processLine, hlen]

/-- C4 witness: a safe trace for the counterexample input, an empty
line with empty buffer producing a break, and an empty line with a
pending buffer producing a flush. -/
theorem no_double_linefeed_witness :
    noDoubleLF (printASCII specA6 [] [97, 10, 10, 98]).1 = true ∧
    processLine specA6 [] [] = ([printBreakRequest 30], []) ∧
    processLine specA6 [99] [] = ([[99], [10]], []) :=
  ⟨(no_double_linefeed specA6 [] [97, 10, 10, 98]).1,
   (no_double_linefeed specA6 [] []).2.1 rfl rfl,
   (no_double_linefeed specA6 [99] []).2.2 (by decide)⟩

end Peripage
